import Mathlib

/-!
Verification development for the News-Reader mobile app's offline-first
content cache and reading-analytics core.

The TypeScript services are shallowly embedded as pure Lean functions:
AsyncStorage becomes explicit state passing over association lists,
`Date.now()` becomes an explicit `now : Int` parameter (milliseconds),
and the network call becomes an explicit `Option NewsApiResponse`
argument (`none` models a failed request).  Calendar days are modelled
as epoch-day numbers (`getDateKey t = t.fdiv dayMs`), i.e. a fixed
timezone with 24-hour days, matching the source's `YYYY-MM-DD` local
keys in the absence of DST transitions.
-/

/-- Mirrors `Article.source` from `src/types/index.ts`. -/
structure NewsSource where
  id : Option String
  name : String
  deriving DecidableEq, Repr

/-- Mirrors `Article` from `src/types/index.ts`. -/
structure Article where
  source : NewsSource
  author : Option String
  title : String
  description : Option String
  url : String
  urlToImage : Option String
  publishedAt : String
  content : Option String
  deriving DecidableEq, Repr

/-- Mirrors `NewsApiResponse` from `src/types/index.ts`. -/
structure NewsApiResponse where
  status : String
  totalResults : Int
  articles : List Article
  deriving DecidableEq, Repr

/-- Mirrors `CacheEntry` from `src/services/cacheStorage.ts`. -/
structure CacheEntry where
  data : NewsApiResponse
  timestamp : Int
  deriving DecidableEq, Repr

/-- Mirrors `CacheMetadata` from `src/services/cacheStorage.ts`. -/
structure CacheMetadata where
  key : String
  timestamp : Int
  category : Option String
  query : Option String
  deriving DecidableEq, Repr

/-- The `Omit<CacheMetadata, 'timestamp'>` argument of `cacheArticles`. -/
structure CacheMetaInput where
  key : String
  category : Option String
  query : Option String
  deriving DecidableEq, Repr

/-- The AsyncStorage slice owned by the cache layer: the entry map
(association list keyed by storage key) and the metadata index stored
under `@news_cache_metadata`. -/
structure CacheState where
  store : List (String × CacheEntry)
  metadata : List CacheMetadata
  deriving DecidableEq, Repr

/-- AsyncStorage.getItem on the entry map. -/
def storeGet (s : List (String × CacheEntry)) (k : String) : Option CacheEntry :=
  (s.find? (fun p => p.1 == k)).map (fun p => p.2)

/-- AsyncStorage.setItem on the entry map (overwrite or create). -/
def storeSet (s : List (String × CacheEntry)) (k : String) (v : CacheEntry) :
    List (String × CacheEntry) :=
  if s.any (fun p => p.1 == k) then
    s.map (fun p => if p.1 == k then (k, v) else p)
  else
    (k, v) :: s

/-- AsyncStorage.removeItem on the entry map. -/
def storeRemove (s : List (String × CacheEntry)) (k : String) :
    List (String × CacheEntry) :=
  s.filter (fun p => p.1 != k)

/-- `CACHE_EXPIRY_HOURS * 60 * 60 * 1000` from `cacheStorage.ts`. -/
def maxAgeMs : Int := 24 * 60 * 60 * 1000

/-- Mirrors the `'category' | 'search'` request-kind union. -/
inductive CacheKeyType where
  | category
  | search
  deriving DecidableEq, Repr

def CacheKeyType.str : CacheKeyType → String
  | .category => "category"
  | .search => "search"

/-- `cacheStorage.generateCacheKey`. -/
def generateCacheKey (t : CacheKeyType) (value : String) : String :=
  "@news_cache_" ++ t.str ++ "_" ++ value

/-- `cacheStorage.cacheArticles`: write the entry, then upsert the
metadata row (new row prepended, any old row with the same `key`
filtered out). -/
def cacheArticles (key : String) (data : NewsApiResponse) (metadata : CacheMetaInput)
    (now : Int) (st : CacheState) : CacheState :=
  let cacheEntry : CacheEntry := { data := data, timestamp := now }
  let newMetadata : CacheMetadata :=
    { key := metadata.key, timestamp := now
      category := metadata.category, query := metadata.query }
  { store := storeSet st.store key cacheEntry
    metadata := newMetadata :: st.metadata.filter (fun m => m.key != key) }

/-- `cacheStorage.clearCache`: remove the entry and its metadata row. -/
def clearCache (key : String) (st : CacheState) : CacheState :=
  { store := storeRemove st.store key
    metadata := st.metadata.filter (fun m => m.key != key) }

/-- `cacheStorage.getCachedArticles`: fresh read; deletes and misses
when `now - timestamp > maxAge`. Returns the read result together with
the (possibly mutated) state. -/
def getCachedArticles (key : String) (now : Int) (st : CacheState) :
    Option NewsApiResponse × CacheState :=
  match storeGet st.store key with
  | none => (none, st)
  | some cacheEntry =>
    if now - cacheEntry.timestamp > maxAgeMs then
      (none, clearCache key st)
    else
      (some cacheEntry.data, st)

/-- `cacheStorage.clearExpiredCache`: collect the keys of expired
metadata rows, then `clearCache` each in order. -/
def clearExpiredCache (now : Int) (st : CacheState) : CacheState :=
  let expiredKeys :=
    (st.metadata.filter (fun m => now - m.timestamp > maxAgeMs)).map (fun m => m.key)
  expiredKeys.foldl (fun acc k => clearCache k acc) st

/-- `newsApi.getTopHeadlines`: page-1 fresh-cache short-circuit, network
call (`net`, with `none` a failed request), page-1 write-back on
success, page-1 cache fallback on failure. -/
def getTopHeadlines (category : String) (page : Nat) (useCache : Bool)
    (net : Option NewsApiResponse) (now : Int) (st : CacheState) :
    Except String NewsApiResponse × CacheState :=
  let cacheKey := generateCacheKey .category (category ++ "_page" ++ toString page)
  let step1 : Option NewsApiResponse × CacheState :=
    if useCache && page == 1 then getCachedArticles cacheKey now st else (none, st)
  match step1 with
  | (some cachedData, st1) => (Except.ok cachedData, st1)
  | (none, st1) =>
    match net with
    | some response =>
      if page == 1 then
        (Except.ok response,
          cacheArticles cacheKey response
            { key := cacheKey, category := some category, query := none } now st1)
      else
        (Except.ok response, st1)
    | none =>
      if page == 1 then
        match getCachedArticles cacheKey now st1 with
        | (some cachedData, st2) => (Except.ok cachedData, st2)
        | (none, st2) =>
          (Except.error "Failed to fetch news. Please check your connection.", st2)
      else
        (Except.error "Failed to fetch news. Please check your connection.", st1)

/-- `newsApi.searchNews`: same shape as `getTopHeadlines` with the
`search` key kind and `query` metadata. -/
def searchNews (query : String) (page : Nat) (useCache : Bool)
    (net : Option NewsApiResponse) (now : Int) (st : CacheState) :
    Except String NewsApiResponse × CacheState :=
  let cacheKey := generateCacheKey .search (query ++ "_page" ++ toString page)
  let step1 : Option NewsApiResponse × CacheState :=
    if useCache && page == 1 then getCachedArticles cacheKey now st else (none, st)
  match step1 with
  | (some cachedData, st1) => (Except.ok cachedData, st1)
  | (none, st1) =>
    match net with
    | some response =>
      if page == 1 then
        (Except.ok response,
          cacheArticles cacheKey response
            { key := cacheKey, category := none, query := some query } now st1)
      else
        (Except.ok response, st1)
    | none =>
      if page == 1 then
        match getCachedArticles cacheKey now st1 with
        | (some cachedData, st2) => (Except.ok cachedData, st2)
        | (none, st2) =>
          (Except.error "Failed to search news. Please check your connection.", st2)
      else
        (Except.error "Failed to search news. Please check your connection.", st1)

/-- `MAX_HISTORY_ITEMS` from `readingHistoryService.ts`. -/
def historyMaxItems : Nat := 100

/-- Mirrors `ReadingHistoryItem`. -/
structure ReadingHistoryItem where
  article : Article
  readAt : Int
  readingTime : Int
  category : String
  source : String
  deriving DecidableEq, Repr

/-- `readingHistoryService.addToHistory`: dedupe by article URL (first
occurrence removed), prepend the new item, cap at 100. -/
def addToHistory (history : List ReadingHistoryItem) (article : Article)
    (readingTime : Int) (category : String) (now : Int) : List ReadingHistoryItem :=
  let historyItem : ReadingHistoryItem :=
    { article := article, readAt := now, readingTime := readingTime, category := category
      source := if article.source.name == "" then "Unknown" else article.source.name }
  let afterRemove :=
    match history.findIdx? (fun item => item.article.url == article.url) with
    | some i => history.eraseIdx i
    | none => history
  let newHistory := historyItem :: afterRemove
  if newHistory.length > historyMaxItems then newHistory.take historyMaxItems
  else newHistory

/-- Mirrors `ReadingStats`. Durations are exact rationals (JS numbers);
the frequency tables are association lists in JS-object insertion
order. -/
structure ReadingStats where
  totalArticlesRead : Nat
  totalReadingTime : Rat
  averageReadingTime : Rat
  currentStreak : Nat
  longestStreak : Nat
  articlesReadToday : Nat
  articlesReadThisWeek : Nat
  articlesReadThisMonth : Nat
  favoriteCategory : String
  favoriteSource : String
  categoriesBreakdown : List (String × Nat)
  sourcesBreakdown : List (String × Nat)
  readingByDay : List (Int × Nat)
  readingByHour : List (Nat × Nat)
  deriving DecidableEq, Repr

/-- One JS day in milliseconds. -/
def dayMs : Int := 24 * 60 * 60 * 1000

/-- `getDateKey`: the calendar day of a timestamp, as an epoch-day
number (floor division, so it is correct for pre-1970 instants too). -/
def getDateKey (t : Int) : Int := t.fdiv dayMs

/-- The current-streak walk of `calculateStreaks`: the source's
`for (i = 1; i < sortedDays.length; i++)` loop, with the iteration
bound made an explicit fuel argument and `checkDate` stepping back one
day (in milliseconds) per iteration. -/
def walkBack (days : List Int) : Nat → Int → Nat → Nat
  | 0, _, streak => streak
  | fuel + 1, checkTime, streak =>
    let ct := checkTime - dayMs
    if days.contains (getDateKey ct) then walkBack days fuel ct (streak + 1)
    else streak

/-- The longest-streak scan of `calculateStreaks`: walk adjacent pairs
of the descending day list, extend on a 1-day gap, reset otherwise,
and take the final `max` after the loop. -/
def longestLoop : List Int → Nat → Nat → Nat
  | d1 :: d2 :: rest, tempStreak, longest =>
    if d1 - d2 == 1 then longestLoop (d2 :: rest) (tempStreak + 1) longest
    else longestLoop (d2 :: rest) 1 (max longest tempStreak)
  | _, tempStreak, longest => max longest tempStreak

/-- JS `Set` construction: keep the first occurrence of each day. -/
def dedupFrom (seen : List Int) : List Int → List Int
  | [] => []
  | d :: rest =>
    if seen.contains d then dedupFrom seen rest
    else d :: dedupFrom (d :: seen) rest

def dedupDays (l : List Int) : List Int := dedupFrom [] l

/-- Insertion step of a descending sort (`sort().reverse()` on the
distinct day keys). -/
def insertDesc (x : Int) : List Int → List Int
  | [] => [x]
  | y :: ys => if x ≥ y then x :: y :: ys else y :: insertDesc x ys

def sortDesc (l : List Int) : List Int := l.foldr insertDesc []

/-- `calculateStreaks` from `readingHistoryService.ts`. -/
def calculateStreaks (history : List ReadingHistoryItem) (now : Int) : Nat × Nat :=
  if history.isEmpty then (0, 0)
  else
    let sortedDays := sortDesc (dedupDays (history.map (fun item => getDateKey item.readAt)))
    let today := getDateKey now
    let yesterday := getDateKey (now - dayMs)
    let currentStreak :=
      if sortedDays.contains today || sortedDays.contains yesterday then
        let checkDate := if sortedDays.contains today then now else now - dayMs
        walkBack sortedDays (sortedDays.length - 1) checkDate 1
      else 0
    (currentStreak, longestLoop sortedDays 1 0)

/-- JS-object counter increment: bump an existing key in place, else
append it with count 1 (JS objects keep insertion order for these
string keys). -/
def bump (l : List (String × Nat)) (k : String) : List (String × Nat) :=
  if l.any (fun p => p.1 == k) then
    l.map (fun p => if p.1 == k then (p.1, p.2 + 1) else p)
  else l ++ [(k, 1)]

/-- Counter increment for integer day keys. -/
def bumpInt (l : List (Int × Nat)) (k : Int) : List (Int × Nat) :=
  if l.any (fun p => p.1 == k) then
    l.map (fun p => if p.1 == k then (p.1, p.2 + 1) else p)
  else l ++ [(k, 1)]

/-- Stable descending insertion by count: an earlier element stays
before later elements of equal count, modelling JS's stable
`sort(([, a], [, b]) => b - a)`. -/
def insertByCount (x : String × Nat) : List (String × Nat) → List (String × Nat)
  | [] => [x]
  | y :: ys => if x.2 ≥ y.2 then x :: y :: ys else y :: insertByCount x ys

def sortByCountDesc (l : List (String × Nat)) : List (String × Nat) :=
  l.foldr insertByCount []

/-- `getReadingByDay`: count events of the last 7 days per day key,
then add a 0 row for each of the last 7 calendar days not yet
present. -/
def getReadingByDay (history : List ReadingHistoryItem) (now : Int) : List (Int × Nat) :=
  let sevenDaysAgo := now - 7 * dayMs
  let counted := (history.filter (fun item => item.readAt > sevenDaysAgo)).foldl
    (fun acc item => bumpInt acc (getDateKey item.readAt)) []
  (List.range 7).foldl
    (fun acc i =>
      let k := getDateKey (now - (i : Int) * dayMs)
      if acc.any (fun p => p.1 == k) then acc else acc ++ [(k, 0)])
    counted

/-- Hour-of-day of a timestamp (0–23). -/
def hourOf (t : Int) : Nat := ((t.fdiv 3600000) % 24).toNat

/-- `getReadingByHour`: initialise all 24 hours at 0, then count. -/
def getReadingByHour (history : List ReadingHistoryItem) : List (Nat × Nat) :=
  let init := (List.range 24).map (fun i => (i, 0))
  history.foldl
    (fun acc item =>
      acc.map (fun p => if p.1 == hourOf item.readAt then (p.1, p.2 + 1) else p))
    init

/-- `getEmptyStats`. -/
def getEmptyStats : ReadingStats :=
  { totalArticlesRead := 0, totalReadingTime := 0, averageReadingTime := 0
    currentStreak := 0, longestStreak := 0, articlesReadToday := 0
    articlesReadThisWeek := 0, articlesReadThisMonth := 0
    favoriteCategory := "None", favoriteSource := "None"
    categoriesBreakdown := [], sourcesBreakdown := []
    readingByDay := [], readingByHour := [] }

/-- `getStats`, with the stored history and the clock passed
explicitly (`computeStats` in the spec's vocabulary). -/
def computeStats (history : List ReadingHistoryItem) (now : Int) : ReadingStats :=
  if history.isEmpty then getEmptyStats
  else
    let totalArticlesRead := history.length
    let totalReadingTime : Rat :=
      ((history.foldl (fun s item => s + item.readingTime) 0 : Int) : Rat) / 60
    let streaks := calculateStreaks history now
    let categoriesBreakdown := history.foldl
      (fun acc item => bump acc (if item.category == "" then "general" else item.category)) []
    let sourcesBreakdown := history.foldl
      (fun acc item => bump acc (if item.source == "" then "Unknown" else item.source)) []
    { totalArticlesRead := totalArticlesRead
      totalReadingTime := totalReadingTime
      averageReadingTime := totalReadingTime / (totalArticlesRead : Rat)
      currentStreak := streaks.1
      longestStreak := streaks.2
      articlesReadToday := (history.filter (fun item => now - item.readAt < dayMs)).length
      articlesReadThisWeek := (history.filter (fun item => now - item.readAt < 7 * dayMs)).length
      articlesReadThisMonth := (history.filter (fun item => now - item.readAt < 30 * dayMs)).length
      favoriteCategory := ((sortByCountDesc categoriesBreakdown).head?.map Prod.fst).getD "general"
      favoriteSource := ((sortByCountDesc sourcesBreakdown).head?.map Prod.fst).getD "Unknown"
      categoriesBreakdown := categoriesBreakdown
      sourcesBreakdown := sourcesBreakdown
      readingByDay := getReadingByDay history now
      readingByHour := getReadingByHour history }


/-! ### Association-list store lemmas -/

theorem storeGet_cons (p : String × CacheEntry) (rest : List (String × CacheEntry)) (k : String) :
    storeGet (p :: rest) k = if p.1 = k then some p.2 else storeGet rest k := by
  by_cases h : p.1 = k <;> simp [storeGet, List.find?_cons, h]

theorem storeRemove_cons (p : String × CacheEntry) (rest : List (String × CacheEntry)) (k : String) :
    storeRemove (p :: rest) k =
      if p.1 = k then storeRemove rest k else p :: storeRemove rest k := by
  by_cases h : p.1 = k <;> simp [storeRemove, List.filter_cons, h]

theorem storeGet_mapUpd_ne (s : List (String × CacheEntry)) (k k' : String) (v : CacheEntry)
    (h : k' ≠ k) :
    storeGet (s.map fun p => if p.1 == k then (k, v) else p) k' = storeGet s k' := by
  induction s with
  | nil => rfl
  | cons p rest ih =>
    by_cases hp : p.1 = k
    · have h1 : (if p.1 == k then (k, v) else p) = (k, v) := by simp [hp]
      rw [List.map_cons, h1, storeGet_cons, storeGet_cons,
        if_neg (show ¬(k, v).1 = k' from fun e => h e.symm),
        if_neg (show ¬p.1 = k' from fun e => h (hp ▸ e).symm), ih]
    · have h1 : (if p.1 == k then (k, v) else p) = p := by simp [hp]
      rw [List.map_cons, h1, storeGet_cons, storeGet_cons, ih]

theorem storeGet_mapUpd_self (s : List (String × CacheEntry)) (k : String) (v : CacheEntry)
    (hs : s.any (fun p => p.1 == k) = true) :
    storeGet (s.map fun p => if p.1 == k then (k, v) else p) k = some v := by
  induction s with
  | nil => simp at hs
  | cons p rest ih =>
    by_cases hp : p.1 = k
    · have h1 : (if p.1 == k then (k, v) else p) = (k, v) := by simp [hp]
      rw [List.map_cons, h1, storeGet_cons, if_pos rfl]
    · have h1 : (if p.1 == k then (k, v) else p) = p := by simp [hp]
      have hs' : rest.any (fun p => p.1 == k) = true := by
        simp only [List.any_cons, Bool.or_eq_true] at hs
        rcases hs with h | h
        · exact absurd (by simpa using h) hp
        · exact h
      rw [List.map_cons, h1, storeGet_cons, if_neg hp]
      exact ih hs'

theorem storeGet_storeSet_self (s : List (String × CacheEntry)) (k : String) (v : CacheEntry) :
    storeGet (storeSet s k v) k = some v := by
  unfold storeSet
  split
  · exact storeGet_mapUpd_self s k v (by assumption)
  · rw [storeGet_cons, if_pos rfl]

theorem storeGet_storeSet_ne (s : List (String × CacheEntry)) (k k' : String) (v : CacheEntry)
    (h : k' ≠ k) :
    storeGet (storeSet s k v) k' = storeGet s k' := by
  unfold storeSet
  split
  · exact storeGet_mapUpd_ne s k k' v h
  · rw [storeGet_cons, if_neg (show ¬(k, v).1 = k' from fun e => h e.symm)]

theorem storeGet_storeRemove_self (s : List (String × CacheEntry)) (k : String) :
    storeGet (storeRemove s k) k = none := by
  induction s with
  | nil => rfl
  | cons p rest ih =>
    rw [storeRemove_cons]
    by_cases hp : p.1 = k
    · rw [if_pos hp]; exact ih
    · rw [if_neg hp, storeGet_cons, if_neg hp]; exact ih

theorem storeGet_storeRemove_ne (s : List (String × CacheEntry)) (k k' : String) (h : k' ≠ k) :
    storeGet (storeRemove s k) k' = storeGet s k' := by
  induction s with
  | nil => rfl
  | cons p rest ih =>
    rw [storeRemove_cons, storeGet_cons]
    by_cases hp : p.1 = k
    · rw [if_pos hp, if_neg (show ¬p.1 = k' from fun e => h (hp ▸ e).symm)]; exact ih
    · rw [if_neg hp, storeGet_cons]
      by_cases hpk : p.1 = k'
      · rw [if_pos hpk, if_pos hpk]
      · rw [if_neg hpk, if_neg hpk]; exact ih

/-! ### Sample values shared by counterexamples and witnesses -/

def sampleArticle : Article :=
  { source := { id := none, name := "BBC" }, author := none, title := "t"
    description := none, url := "https://example.com/a", urlToImage := none
    publishedAt := "2026-01-01", content := none }

def sampleResponse : NewsApiResponse :=
  { status := "ok", totalResults := 1, articles := [sampleArticle] }

def emptyCacheState : CacheState := { store := [], metadata := [] }

def sampleMeta : CacheMetaInput := { key := "k", category := some "technology", query := none }

/-- The page-1 category key for "technology", as computed by the fetch layer. -/
def techKey : String := generateCacheKey .category "technology_page1"

/-- A state holding one page-1 "technology" entry stored at time 0. -/
def techState : CacheState :=
  cacheArticles techKey sampleResponse
    { key := techKey, category := some "technology", query := none } 0 emptyCacheState

/-- C6: `getStats` on an empty reading history returns the canonical
zeroed snapshot: every count, duration and streak is 0 and the favorite
category (and source) is "None"; no division by zero is performed since
the empty branch returns early. -/
theorem c6_empty_log_stats (now : Int) :
    computeStats [] now = getEmptyStats ∧
    (computeStats [] now).totalArticlesRead = 0 ∧
    (computeStats [] now).totalReadingTime = 0 ∧
    (computeStats [] now).averageReadingTime = 0 ∧
    (computeStats [] now).currentStreak = 0 ∧
    (computeStats [] now).longestStreak = 0 ∧
    (computeStats [] now).articlesReadToday = 0 ∧
    (computeStats [] now).articlesReadThisWeek = 0 ∧
    (computeStats [] now).articlesReadThisMonth = 0 ∧
    (computeStats [] now).favoriteCategory = "None" :=
  ⟨rfl, rfl, rfl, rfl, rfl, rfl, rfl, rfl, rfl, rfl⟩

/-- C2 counterexample: a read at exactly `T + 24h` (store at 0, read at
86400000) returns the stored payload, where the claim requires absence
for every `T' ≥ T + 24h`. -/
theorem c2_boundary_counterexample :
    (getCachedArticles "k" 86400000
      (cacheArticles "k" sampleResponse sampleMeta 0 emptyCacheState)).1 =
      some sampleResponse := by rfl

/-- C2 (amended): an entry written by `cacheArticles` at time T is
returned by the fresh read at any `T'` with `T' - T ≤ 24h` (state
unchanged), and at any `T' - T > 24h` the fresh read returns absent and
deletes both the entry and its metadata row. -/
theorem c2_ttl_roundtrip (key : String) (data : NewsApiResponse) (meta : CacheMetaInput)
    (putTime readTime : Int) (st : CacheState) :
    (readTime - putTime ≤ maxAgeMs →
      getCachedArticles key readTime (cacheArticles key data meta putTime st) =
        (some data, cacheArticles key data meta putTime st)) ∧
    (readTime - putTime > maxAgeMs →
      (getCachedArticles key readTime (cacheArticles key data meta putTime st)).1 = none ∧
      storeGet (getCachedArticles key readTime (cacheArticles key data meta putTime st)).2.store
        key = none ∧
      ∀ m ∈ (getCachedArticles key readTime (cacheArticles key data meta putTime st)).2.metadata,
        m.key ≠ key) := by
  have hget : storeGet (cacheArticles key data meta putTime st).store key =
      some { data := data, timestamp := putTime } := by
    unfold cacheArticles
    exact storeGet_storeSet_self _ _ _
  constructor
  · intro hle
    unfold getCachedArticles
    rw [hget]
    simp only
    rw [if_neg (by omega)]
  · intro hgt
    unfold getCachedArticles
    rw [hget]
    simp only
    rw [if_pos (by omega)]
    refine ⟨rfl, ?_, ?_⟩
    · exact storeGet_storeRemove_self _ _
    · intro m hm
      unfold clearCache at hm
      simp only [List.mem_filter] at hm
      simpa using hm.2

theorem c2_ttl_roundtrip_witness :
    getCachedArticles "k" 86400000 (cacheArticles "k" sampleResponse sampleMeta 0 emptyCacheState) =
      (some sampleResponse, cacheArticles "k" sampleResponse sampleMeta 0 emptyCacheState) ∧
    (getCachedArticles "k" 86400001
      (cacheArticles "k" sampleResponse sampleMeta 0 emptyCacheState)).1 = none :=
  ⟨(c2_ttl_roundtrip "k" sampleResponse sampleMeta 0 86400000 emptyCacheState).1 (by decide),
   ((c2_ttl_roundtrip "k" sampleResponse sampleMeta 0 86400001 emptyCacheState).2 (by decide)).1⟩

/-- C1: the claim matches the code's own comment ("If network fails, try
to return cached data even if expired"), but the catch path calls the
TTL-enforcing fresh read, so at the failing input — a page-1 entry
stored at time 0, network failure at time 86400001 — cached data exists
yet both fetchers propagate the error (and delete the stale entry). -/
theorem c1_stale_fallback_code_bug :
    (storeGet techState.store techKey).isSome = true ∧
    (getTopHeadlines "technology" 1 true none 86400001 techState).1 =
      Except.error "Failed to fetch news. Please check your connection." ∧
    (searchNews "climate" 1 true none 86400001
        (cacheArticles (generateCacheKey .search "climate_page1") sampleResponse
          { key := generateCacheKey .search "climate_page1", category := none
            query := some "climate" } 0 emptyCacheState)).1 =
      Except.error "Failed to search news. Please check your connection." :=
  ⟨rfl, rfl, rfl⟩

/-- C3: requests for pages ≥ 2 leave the whole cache state (entry store
and metadata index) unchanged, for both fetchers, whether the network
call succeeds or fails and whatever `useCache` is. -/
theorem c3_page_ge_two_frame (category query : String) (page : Nat) (useCache : Bool)
    (net : Option NewsApiResponse) (now : Int) (st : CacheState) (hp : 2 ≤ page) :
    (getTopHeadlines category page useCache net now st).2 = st ∧
    (searchNews query page useCache net now st).2 = st := by
  have h1 : (page == 1) = false := beq_eq_false_iff_ne.mpr (by omega)
  constructor
  · unfold getTopHeadlines
    rw [h1]
    cases net <;> simp [h1]
  · unfold searchNews
    rw [h1]
    cases net <;> simp [h1]

theorem c3_page_ge_two_frame_witness :
    (getTopHeadlines "technology" 2 true (some sampleResponse) 5 techState).2 = techState ∧
    (searchNews "climate" 2 true (some sampleResponse) 5 techState).2 = techState :=
  c3_page_ge_two_frame "technology" "climate" 2 true (some sampleResponse) 5 techState
    (by decide)

/-! ### clearExpiredCache lemmas -/

theorem foldl_clearCache_metadata (ks : List String) (st : CacheState) :
    (ks.foldl (fun acc k => clearCache k acc) st).metadata =
      st.metadata.filter (fun m => !(ks.contains m.key)) := by
  induction ks generalizing st with
  | nil => simp
  | cons k rest ih =>
    rw [List.foldl_cons, ih]
    show (clearCache k st).metadata.filter _ = _
    unfold clearCache
    simp only [List.filter_filter]
    congr 1
    funext m
    simp only [List.contains_cons, Bool.not_or, bne]
    exact Bool.and_comm _ _

/-- C8: `clearExpiredCache` is idempotent — at a fixed clock, running it
twice from any cache state yields exactly the state of running it
once (the first pass leaves no expired index row, so the second pass
deletes nothing). -/
theorem c8_clear_expired_idempotent (now : Int) (st : CacheState) :
    clearExpiredCache now (clearExpiredCache now st) = clearExpiredCache now st := by
  have hm : (clearExpiredCache now st).metadata.filter
      (fun m => now - m.timestamp > maxAgeMs) = [] := by
    unfold clearExpiredCache
    rw [foldl_clearCache_metadata]
    rw [List.filter_eq_nil_iff]
    intro m hmem
    rcases List.mem_filter.mp hmem with ⟨hmm, hnc⟩
    intro hexp
    have hin : m.key ∈ (st.metadata.filter
        (fun m => decide (now - m.timestamp > maxAgeMs))).map (fun m => m.key) :=
      List.mem_map.mpr ⟨m, List.mem_filter.mpr ⟨hmm, hexp⟩, rfl⟩
    simp only [Bool.not_eq_true'] at hnc
    simp only [List.contains_eq_any_beq] at hnc
    rw [List.any_eq_false] at hnc
    exact (by simpa using hnc m.key hin : False)
  have h2 : clearExpiredCache now (clearExpiredCache now st) =
      (((clearExpiredCache now st).metadata.filter
          (fun m => now - m.timestamp > maxAgeMs)).map (fun m => m.key)).foldl
        (fun acc k => clearCache k acc) (clearExpiredCache now st) := rfl
  rw [h2, hm]
  rfl

/-- C10 (amended): `useCache = false` only disables the initial
fresh-cache read.  On a successful page-1 fetch both fetchers still
write the entry and upsert its index row (the final state is exactly
the `cacheArticles` state, whose entry carries the response and whose
index head is the new row); on a failed page-1 fetch both fetchers
still fall back to the cache read and return the payload whenever a
fresh (within-TTL) entry is present. -/
theorem c10_use_cache_gates_only_fresh_read (category query : String)
    (resp : NewsApiResponse) (now : Int) (st : CacheState) :
    (getTopHeadlines category 1 false (some resp) now st =
      (Except.ok resp,
        cacheArticles (generateCacheKey .category (category ++ "_page" ++ toString 1)) resp
          { key := generateCacheKey .category (category ++ "_page" ++ toString 1)
            category := some category, query := none } now st) ∧
      storeGet (getTopHeadlines category 1 false (some resp) now st).2.store
        (generateCacheKey .category (category ++ "_page" ++ toString 1)) =
        some { data := resp, timestamp := now } ∧
      (getTopHeadlines category 1 false (some resp) now st).2.metadata.head? =
        some { key := generateCacheKey .category (category ++ "_page" ++ toString 1)
               timestamp := now, category := some category, query := none }) ∧
    (searchNews query 1 false (some resp) now st =
      (Except.ok resp,
        cacheArticles (generateCacheKey .search (query ++ "_page" ++ toString 1)) resp
          { key := generateCacheKey .search (query ++ "_page" ++ toString 1)
            category := none, query := some query } now st) ∧
      storeGet (searchNews query 1 false (some resp) now st).2.store
        (generateCacheKey .search (query ++ "_page" ++ toString 1)) =
        some { data := resp, timestamp := now } ∧
      (searchNews query 1 false (some resp) now st).2.metadata.head? =
        some { key := generateCacheKey .search (query ++ "_page" ++ toString 1)
               timestamp := now, category := none, query := some query }) ∧
    (∀ e : CacheEntry,
      storeGet st.store (generateCacheKey .category (category ++ "_page" ++ toString 1)) =
        some e →
      now - e.timestamp ≤ maxAgeMs →
      getTopHeadlines category 1 false none now st = (Except.ok e.data, st)) ∧
    (∀ e : CacheEntry,
      storeGet st.store (generateCacheKey .search (query ++ "_page" ++ toString 1)) =
        some e →
      now - e.timestamp ≤ maxAgeMs →
      searchNews query 1 false none now st = (Except.ok e.data, st)) := by
  refine ⟨⟨?_, ?_, ?_⟩, ⟨?_, ?_, ?_⟩, ?_, ?_⟩
  · rfl
  · show storeGet (cacheArticles _ resp _ now st).store _ = _
    exact storeGet_storeSet_self _ _ _
  · rfl
  · rfl
  · show storeGet (cacheArticles _ resp _ now st).store _ = _
    exact storeGet_storeSet_self _ _ _
  · rfl
  · intro e he hfresh
    have hc : ¬(now - e.timestamp > maxAgeMs) := by omega
    unfold getTopHeadlines getCachedArticles
    simp [he, hc]
  · intro e he hfresh
    have hc : ¬(now - e.timestamp > maxAgeMs) := by omega
    unfold searchNews getCachedArticles
    simp [he, hc]

/-- C10 counterexample: with `useCache = false` and a failing network
call, a cache entry is present for the key (stored at 0, now 86400001,
i.e. expired) yet `getTopHeadlines` raises instead of returning it —
the fallback read enforces the TTL, so "when one is present" does not
hold for expired entries. -/
theorem c10_expired_fallback_counterexample :
    (storeGet techState.store techKey).isSome = true ∧
    (getTopHeadlines "technology" 1 false none 86400001 techState).1 =
      Except.error "Failed to fetch news. Please check your connection." :=
  ⟨rfl, rfl⟩

theorem c10_use_cache_gates_only_fresh_read_witness :
    getTopHeadlines "technology" 1 false none 100 techState =
      (Except.ok sampleResponse, techState) :=
  (c10_use_cache_gates_only_fresh_read "technology" "climate" sampleResponse 100
    techState).2.2.1 { data := sampleResponse, timestamp := 0 } rfl (by decide)

/-! ### Cache index consistency (C4) -/

/-- Number of index rows carrying a given key. -/
def metaCount (st : CacheState) (k : String) : Nat :=
  (st.metadata.filter (fun m => m.key == k)).length

/-- The index exactly mirrors the live entries: the store's keys are
distinct, every index row points at a readable entry, and every entry
has exactly one index row. -/
def cacheMirrors (st : CacheState) : Prop :=
  (st.store.map Prod.fst).Nodup ∧
  (∀ m ∈ st.metadata, (storeGet st.store m.key).isSome = true) ∧
  (∀ p ∈ st.store, metaCount st p.1 = 1)

/-- The cache-mutating operations of the claim. -/
inductive CacheOp where
  | put (key : String) (data : NewsApiResponse) (meta : CacheMetaInput) (now : Int)
  | clear (key : String)
  | clearExpired (now : Int)

def applyOp (st : CacheState) : CacheOp → CacheState
  | .put k d m now => cacheArticles k d m now st
  | .clear k => clearCache k st
  | .clearExpired now => clearExpiredCache now st

/-- Well-formed call: `cacheArticles` is invoked with `metadata.key`
equal to the storage key, as at every call site in the app. -/
def wfOp : CacheOp → Prop
  | .put k _ m _ => m.key = k
  | .clear _ => True
  | .clearExpired _ => True

theorem map_fst_mapUpd (s : List (String × CacheEntry)) (k : String) (v : CacheEntry) :
    (s.map fun p => if p.1 == k then (k, v) else p).map Prod.fst = s.map Prod.fst := by
  rw [List.map_map]
  refine List.map_congr_left ?_
  intro p _
  by_cases hp : p.1 = k <;> simp [hp]

theorem nodup_storeSet (s : List (String × CacheEntry)) (k : String) (v : CacheEntry)
    (h : (s.map Prod.fst).Nodup) : ((storeSet s k v).map Prod.fst).Nodup := by
  unfold storeSet
  split
  · rw [map_fst_mapUpd]; exact h
  · rename_i hany
    rw [List.map_cons]
    refine List.Nodup.cons ?_ h
    intro hk
    rcases List.mem_map.mp hk with ⟨p, hp, hfst⟩
    rw [Bool.not_eq_true, List.any_eq_false] at hany
    have := hany p hp
    simp [hfst] at this

theorem mem_storeSet_fst (s : List (String × CacheEntry)) (k : String) (v : CacheEntry)
    (p : String × CacheEntry) (hp : p ∈ storeSet s k v) :
    p.1 = k ∨ (p.1 ≠ k ∧ p ∈ s) := by
  unfold storeSet at hp
  by_cases hany : s.any (fun q => q.1 == k) = true
  · rw [if_pos hany] at hp
    rcases List.mem_map.mp hp with ⟨q, hq, hupd⟩
    by_cases hqk : q.1 = k
    · left; rw [← hupd]; simp [hqk]
    · right
      have : p = q := by rw [← hupd]; simp [hqk]
      exact this ▸ ⟨hqk, hq⟩
  · rw [if_neg hany] at hp
    rw [Bool.not_eq_true, List.any_eq_false] at hany
    rcases List.mem_cons.mp hp with h | h
    · left; rw [h]
    · right
      refine ⟨?_, h⟩
      have := hany p h
      simpa using this

theorem filter_bne_then_beq (l : List CacheMetadata) (k : String) :
    (l.filter (fun m => m.key != k)).filter (fun m => m.key == k) = [] := by
  rw [List.filter_eq_nil_iff]
  intro m hm
  rcases List.mem_filter.mp hm with ⟨_, hne⟩
  simp at hne ⊢
  exact hne

theorem metaCount_cacheArticles_self (st : CacheState) (k : String) (d : NewsApiResponse)
    (meta : CacheMetaInput) (now : Int) (hwf : meta.key = k) :
    metaCount (cacheArticles k d meta now st) k = 1 := by
  unfold metaCount cacheArticles
  simp only [List.filter_cons, hwf]
  rw [if_pos (by simp)]
  rw [filter_bne_then_beq]
  rfl

theorem metaCount_cacheArticles_ne (st : CacheState) (k k' : String) (d : NewsApiResponse)
    (meta : CacheMetaInput) (now : Int) (hwf : meta.key = k) (h : k' ≠ k) :
    metaCount (cacheArticles k d meta now st) k' = metaCount st k' := by
  unfold metaCount cacheArticles
  simp only [List.filter_cons, hwf]
  rw [if_neg (by simp; exact fun e => h e.symm)]
  congr 1
  rw [List.filter_filter]
  refine List.filter_congr ?_
  intro m _
  by_cases hm : m.key = k'
  · simp [hm, h]
  · simp [hm]

theorem metaCount_clearCache (st : CacheState) (k k' : String) :
    metaCount (clearCache k st) k' = if k' = k then 0 else metaCount st k' := by
  unfold metaCount clearCache
  by_cases h : k' = k
  · rw [if_pos h, h, filter_bne_then_beq]; rfl
  · rw [if_neg h]
    congr 1
    rw [List.filter_filter]
    refine List.filter_congr ?_
    intro m _
    by_cases hm : m.key = k'
    · simp [hm, h]
    · simp [hm]

theorem mirrors_clearCache (st : CacheState) (k : String) (h : cacheMirrors st) :
    cacheMirrors (clearCache k st) := by
  obtain ⟨hnd, hrows, hentries⟩ := h
  refine ⟨?_, ?_, ?_⟩
  · exact List.Nodup.sublist ((List.filter_sublist st.store).map Prod.fst) hnd
  · intro m hm
    rcases List.mem_filter.mp hm with ⟨hmem, hne⟩
    have hne' : m.key ≠ k := by simpa using hne
    show (storeGet (storeRemove st.store k) m.key).isSome = true
    rw [storeGet_storeRemove_ne _ _ _ hne']
    exact hrows m hmem
  · intro p hp
    rcases List.mem_filter.mp hp with ⟨hmem, hne⟩
    have hne' : p.1 ≠ k := by simpa using hne
    rw [metaCount_clearCache, if_neg hne']
    exact hentries p hmem

theorem mirrors_cacheArticles (st : CacheState) (k : String) (d : NewsApiResponse)
    (meta : CacheMetaInput) (now : Int) (hwf : meta.key = k) (h : cacheMirrors st) :
    cacheMirrors (cacheArticles k d meta now st) := by
  obtain ⟨hnd, hrows, hentries⟩ := h
  refine ⟨?_, ?_, ?_⟩
  · exact nodup_storeSet _ _ _ hnd
  · intro m hm
    rcases List.mem_cons.mp hm with hm | hm
    · show (storeGet (storeSet st.store k _) m.key).isSome = true
      rw [hm]
      show (storeGet _ meta.key).isSome = true
      rw [hwf, storeGet_storeSet_self]
      rfl
    · rcases List.mem_filter.mp hm with ⟨hmem, hne⟩
      have hne' : m.key ≠ k := by simpa using hne
      show (storeGet (storeSet st.store k _) m.key).isSome = true
      rw [storeGet_storeSet_ne _ _ _ _ hne']
      exact hrows m hmem
  · intro p hp
    rcases mem_storeSet_fst _ _ _ _ hp with hk | ⟨hk, hmem⟩
    · rw [hk]
      exact metaCount_cacheArticles_self st k d meta now hwf
    · rw [metaCount_cacheArticles_ne st k p.1 d meta now hwf hk]
      exact hentries p hmem

theorem mirrors_foldl_clear (ks : List String) (st : CacheState) (h : cacheMirrors st) :
    cacheMirrors (ks.foldl (fun acc k => clearCache k acc) st) := by
  induction ks generalizing st with
  | nil => exact h
  | cons k rest ih => exact ih _ (mirrors_clearCache st k h)

theorem mirrors_clearExpired (st : CacheState) (now : Int) (h : cacheMirrors st) :
    cacheMirrors (clearExpiredCache now st) :=
  mirrors_foldl_clear _ st h

/-- C4: starting from a state whose index exactly mirrors the live
entries, any sequence of well-formed `cacheArticles` / `clearCache` /
`clearExpiredCache` calls preserves the mirror invariant: every index
row has a readable entry and every entry exactly one index row. -/
theorem c4_index_consistency (ops : List CacheOp) (st : CacheState)
    (hst : cacheMirrors st) (hops : ∀ op ∈ ops, wfOp op) :
    cacheMirrors (ops.foldl applyOp st) := by
  induction ops generalizing st with
  | nil => exact hst
  | cons op rest ih =>
    rw [List.foldl_cons]
    refine ih (applyOp st op) ?_ (fun o ho => hops o (List.mem_cons_of_mem _ ho))
    have hwf := hops op (List.mem_cons_self _ _)
    cases op with
    | put k d m now => exact mirrors_cacheArticles st k d m now hwf hst
    | clear k => exact mirrors_clearCache st k hst
    | clearExpired now => exact mirrors_clearExpired st now hst

theorem c4_index_consistency_witness :
    cacheMirrors ([CacheOp.put "a" sampleResponse
        { key := "a", category := some "technology", query := none } 0,
      CacheOp.clearExpired 90000000, CacheOp.clear "a"].foldl applyOp emptyCacheState) :=
  c4_index_consistency _ emptyCacheState
    ⟨List.nodup_nil, fun m hm => absurd hm (by simp [emptyCacheState]),
      fun p hp => absurd hp (by simp [emptyCacheState])⟩
    (by intro op hop
        rcases List.mem_cons.mp hop with rfl | hop
        · exact rfl
        · rcases List.mem_cons.mp hop with rfl | hop
          · exact trivial
          · rcases List.mem_cons.mp hop with rfl | hop
            · exact trivial
            · cases hop)

/-! ### Reading-history dedupe and cap (C7) -/

/-- Number of history entries for a given article URL. -/
def countUrl (h : List ReadingHistoryItem) (u : String) : Nat :=
  (h.filter (fun item => item.article.url == u)).length

/-- Remove the first entry with the given URL (the effect of the
source's `findIndex` + `splice(existingIndex, 1)`). -/
def removeFirstUrl : List ReadingHistoryItem → String → List ReadingHistoryItem
  | [], _ => []
  | item :: rest, u =>
    if item.article.url == u then rest else item :: removeFirstUrl rest u

/-- The history item built by `addToHistory`. -/
def mkHistoryItem (article : Article) (readingTime : Int) (category : String)
    (now : Int) : ReadingHistoryItem :=
  { article := article, readAt := now, readingTime := readingTime, category := category
    source := if article.source.name == "" then "Unknown" else article.source.name }

theorem dedupe_eq_removeFirstUrl (h : List ReadingHistoryItem) (u : String) :
    (match h.findIdx? (fun item => item.article.url == u) with
     | some i => h.eraseIdx i
     | none => h) = removeFirstUrl h u := by
  induction h with
  | nil => rfl
  | cons item rest ih =>
    rw [List.findIdx?_cons]
    by_cases hu : item.article.url = u
    · rw [if_pos (by simp [hu])]
      simp [removeFirstUrl, hu]
    · rw [if_neg (by simp [hu]), List.findIdx?_succ, removeFirstUrl, if_neg (by simp [hu])]
      rw [← ih]
      cases hidx : rest.findIdx? (fun item => item.article.url == u) <;> simp [hidx]

theorem addToHistory_eq (h : List ReadingHistoryItem) (a : Article) (rt : Int)
    (c : String) (now : Int) :
    addToHistory h a rt c now =
      (mkHistoryItem a rt c now :: removeFirstUrl h a.url).take historyMaxItems := by
  simp only [addToHistory, dedupe_eq_removeFirstUrl]
  have hrec :
      ({ article := a, readAt := now, readingTime := rt, category := c
         source := (if a.source.name == "" then "Unknown" else a.source.name) } :
        ReadingHistoryItem) = mkHistoryItem a rt c now := rfl
  rw [hrec]
  split
  · rfl
  · rename_i hn
    exact (List.take_of_length_le (Nat.le_of_not_lt hn)).symm

theorem countUrl_cons (item : ReadingHistoryItem) (rest : List ReadingHistoryItem)
    (u : String) :
    countUrl (item :: rest) u =
      (if item.article.url = u then 1 else 0) + countUrl rest u := by
  unfold countUrl
  by_cases hu : item.article.url = u
  · rw [List.filter_cons, if_pos (by simp [hu]), if_pos hu, List.length_cons]
    omega
  · rw [List.filter_cons, if_neg (by simp [hu]), if_neg hu]
    omega

theorem countUrl_removeFirstUrl (h : List ReadingHistoryItem) (u : String)
    (hone : countUrl h u ≤ 1) : countUrl (removeFirstUrl h u) u = 0 := by
  induction h with
  | nil => rfl
  | cons item rest ih =>
    rw [countUrl_cons] at hone
    rw [removeFirstUrl]
    by_cases hu : item.article.url = u
    · rw [if_pos (by simp [hu])]
      rw [if_pos hu] at hone
      omega
    · rw [if_neg (by simp [hu]), countUrl_cons, if_neg hu]
      rw [if_neg hu] at hone
      simpa using ih (by omega)

theorem countUrl_take_le (h : List ReadingHistoryItem) (u : String) (n : Nat) :
    countUrl (h.take n) u ≤ countUrl h u :=
  List.Sublist.length_le (List.Sublist.filter _ (List.take_sublist n h))

/-- C7: recording is dedupe-by-URL, prepend, cap-at-100.  If the log
holds at most one entry for a URL (the invariant recording maintains),
recording twice with that URL leaves exactly one entry, at the head,
carrying the latest timestamp and duration; moreover every recorded
log has length ≤ 100 and equals the new item prepended to the
dedupe-filtered old log, truncated to the 100 newest entries (the
oldest beyond the cap are evicted). -/
theorem c7_dedupe_and_cap (h : List ReadingHistoryItem) (a : Article)
    (rt1 rt2 : Int) (c1 c2 : String) (n1 n2 : Int)
    (hone : countUrl h a.url ≤ 1) :
    countUrl (addToHistory (addToHistory h a rt1 c1 n1) a rt2 c2 n2) a.url = 1 ∧
    (∃ tl, addToHistory (addToHistory h a rt1 c1 n1) a rt2 c2 n2 =
      mkHistoryItem a rt2 c2 n2 :: tl ∧
      (mkHistoryItem a rt2 c2 n2).readAt = n2 ∧
      (mkHistoryItem a rt2 c2 n2).readingTime = rt2) ∧
    (∀ (h' : List ReadingHistoryItem) (a' : Article) (rt' : Int) (c' : String) (n' : Int),
      (addToHistory h' a' rt' c' n').length ≤ historyMaxItems) ∧
    (∀ (h' : List ReadingHistoryItem) (a' : Article) (rt' : Int) (c' : String) (n' : Int),
      addToHistory h' a' rt' c' n' =
        (mkHistoryItem a' rt' c' n' :: removeFirstUrl h' a'.url).take historyMaxItems) := by
  have hcount : ∀ (h' : List ReadingHistoryItem) (rt' : Int) (c' : String) (n' : Int),
      countUrl h' a.url ≤ 1 → countUrl (addToHistory h' a rt' c' n') a.url = 1 := by
    intro h' rt' c' n' hle
    rw [addToHistory_eq]
    show countUrl ((mkHistoryItem a rt' c' n' :: removeFirstUrl h' a.url).take (99 + 1))
      a.url = 1
    rw [List.take_succ_cons, countUrl_cons,
      if_pos (show (mkHistoryItem a rt' c' n').article.url = a.url from rfl)]
    have h0 : countUrl (removeFirstUrl h' a.url) a.url = 0 := countUrl_removeFirstUrl _ _ hle
    have := countUrl_take_le (removeFirstUrl h' a.url) a.url 99
    omega
  have h1 : countUrl (addToHistory h a rt1 c1 n1) a.url = 1 := hcount h rt1 c1 n1 hone
  refine ⟨hcount _ rt2 c2 n2 (by omega), ?_, ?_, ?_⟩
  · refine ⟨(removeFirstUrl (addToHistory h a rt1 c1 n1) a.url).take 99, ?_, rfl, rfl⟩
    rw [addToHistory_eq]
    show (_ :: removeFirstUrl _ a.url).take (99 + 1) = _
    rw [List.take_succ_cons]
  · intro h' a' rt' c' n'
    rw [addToHistory_eq]
    exact List.length_take_le _ _
  · intro h' a' rt' c' n'
    exact addToHistory_eq h' a' rt' c' n'

theorem c7_dedupe_and_cap_witness :
    countUrl (addToHistory (addToHistory [] sampleArticle 5 "technology" 1)
      sampleArticle 9 "science" 2) sampleArticle.url = 1 :=
  (c7_dedupe_and_cap [] sampleArticle 5 9 "technology" "science" 1 2 (by decide)).1

/-! ### Breakdown tables and favorites (C9) -/

/-- Count held in a JS-object counter for a key (0 when absent). -/
def lookupCount (l : List (String × Nat)) (k : String) : Nat :=
  ((l.find? (fun p => p.1 == k)).map Prod.snd).getD 0

/-- The first key (in JS-object insertion order) whose count is
maximal — the spec's tie-break rule, stated independently of the
code's sort. -/
def firstMax (l : List (String × Nat)) : Option (String × Nat) :=
  l.find? (fun p => l.all (fun q => q.2 ≤ p.2))

theorem lookupCount_cons (p : String × Nat) (l : List (String × Nat)) (k : String) :
    lookupCount (p :: l) k = if p.1 = k then p.2 else lookupCount l k := by
  by_cases h : p.1 = k <;> simp [lookupCount, List.find?_cons, h]

theorem lookupCount_zero_of_not_any (l : List (String × Nat)) (k : String)
    (h : l.any (fun p => p.1 == k) = false) : lookupCount l k = 0 := by
  induction l with
  | nil => rfl
  | cons p rest ih =>
    rw [List.any_cons, Bool.or_eq_false_iff] at h
    rw [lookupCount_cons, if_neg (by simpa using h.1)]
    exact ih h.2

theorem lookupCount_append (l₁ l₂ : List (String × Nat)) (k : String) :
    lookupCount (l₁ ++ l₂) k =
      if l₁.any (fun p => p.1 == k) then lookupCount l₁ k else lookupCount l₂ k := by
  induction l₁ with
  | nil => simp
  | cons p rest ih =>
    rw [List.cons_append, lookupCount_cons, List.any_cons, lookupCount_cons]
    by_cases h : p.1 = k
    · rw [if_pos h, if_pos (by simp [h])]
      rw [if_pos h]
    · rw [if_neg h, if_neg h, ih]
      by_cases h2 : rest.any (fun p => p.1 == k) = true
      · rw [if_pos h2, if_pos (by simp [h, h2])]
      · rw [if_neg h2, if_neg (by simp [h]; simpa using h2)]

theorem lookupCount_mapIncr_ne (l : List (String × Nat)) (j k : String) (h : j ≠ k) :
    lookupCount (l.map (fun p => if p.1 == j then (p.1, p.2 + 1) else p)) k =
      lookupCount l k := by
  induction l with
  | nil => rfl
  | cons p rest ih =>
    rw [List.map_cons]
    by_cases hp : p.1 = j
    · have h1 : (if p.1 == j then (p.1, p.2 + 1) else p) = (p.1, p.2 + 1) := by simp [hp]
      rw [h1, lookupCount_cons, lookupCount_cons]
      have hk : ¬p.1 = k := fun e => h (hp ▸ e : j = k)
      rw [if_neg hk, if_neg hk, ih]
    · have h1 : (if p.1 == j then (p.1, p.2 + 1) else p) = p := by simp [hp]
      rw [h1, lookupCount_cons, lookupCount_cons, ih]

theorem lookupCount_mapIncr_self (l : List (String × Nat)) (k : String)
    (h : l.any (fun p => p.1 == k) = true) :
    lookupCount (l.map (fun p => if p.1 == k then (p.1, p.2 + 1) else p)) k =
      lookupCount l k + 1 := by
  induction l with
  | nil => simp at h
  | cons p rest ih =>
    rw [List.map_cons]
    by_cases hp : p.1 = k
    · have h1 : (if p.1 == k then (p.1, p.2 + 1) else p) = (p.1, p.2 + 1) := by simp [hp]
      rw [h1, lookupCount_cons, lookupCount_cons, if_pos hp, if_pos hp]
    · have h1 : (if p.1 == k then (p.1, p.2 + 1) else p) = p := by simp [hp]
      rw [List.any_cons, Bool.or_eq_true] at h
      rcases h with h | h
      · exact absurd (by simpa using h) hp
      · rw [h1, lookupCount_cons, lookupCount_cons, if_neg hp, if_neg hp, ih h]

theorem lookupCount_bump (l : List (String × Nat)) (j k : String) :
    lookupCount (bump l j) k = lookupCount l k + (if j = k then 1 else 0) := by
  unfold bump
  by_cases hany : l.any (fun p => p.1 == j) = true
  · rw [if_pos hany]
    by_cases hjk : j = k
    · subst hjk
      rw [lookupCount_mapIncr_self l j hany, if_pos rfl]
    · rw [lookupCount_mapIncr_ne l j k hjk, if_neg hjk]
      omega
  · rw [if_neg hany, lookupCount_append]
    rw [Bool.not_eq_true] at hany
    by_cases hjk : j = k
    · subst hjk
      rw [if_neg (by simp [hany]), lookupCount_zero_of_not_any l j hany]
      simp [lookupCount]
    · by_cases h2 : l.any (fun p => p.1 == k) = true
      · rw [if_pos h2, if_neg hjk]
        omega
      · rw [if_neg h2, if_neg hjk]
        rw [lookupCount_zero_of_not_any l k (Bool.not_eq_true _ ▸ h2)]
        simp [lookupCount, List.find?_cons, hjk]

theorem lookupCount_foldl_bump (l : List ReadingHistoryItem)
    (f : ReadingHistoryItem → String) (init : List (String × Nat)) (k : String) :
    lookupCount (l.foldl (fun acc item => bump acc (f item)) init) k =
      lookupCount init k + (l.filter (fun item => f item == k)).length := by
  induction l generalizing init with
  | nil => simp
  | cons x rest ih =>
    rw [List.foldl_cons, ih, lookupCount_bump, List.filter_cons]
    by_cases h : f x = k
    · rw [if_pos h, if_pos (show (f x == k) = true by simpa using h), List.length_cons]
      omega
    · rw [if_neg h, if_neg (show ¬(f x == k) = true by simpa using h)]
      omega

theorem find?_congr_mem {α : Type} (l : List α) (p q : α → Bool)
    (h : ∀ a ∈ l, p a = q a) : l.find? p = l.find? q := by
  induction l with
  | nil => rfl
  | cons x rest ih =>
    rw [List.find?_cons, List.find?_cons, h x (List.mem_cons_self x rest)]
    cases hq : q x
    · exact ih (fun a ha => h a (List.mem_cons_of_mem x ha))
    · rfl

theorem length_sortByCountDesc (l : List (String × Nat)) :
    (sortByCountDesc l).length = l.length := by
  induction l with
  | nil => rfl
  | cons x rest ih =>
    show (insertByCount x (sortByCountDesc rest)).length = rest.length + 1
    rw [← ih]
    generalize sortByCountDesc rest = s
    induction s with
    | nil => rfl
    | cons y ys ihs =>
      rw [insertByCount]
      by_cases hc : x.2 ≥ y.2
      · rw [if_pos hc]
        rfl
      · rw [if_neg hc, List.length_cons, ihs, List.length_cons]

theorem head_sortByCountDesc (l : List (String × Nat)) :
    (sortByCountDesc l).head? = firstMax l := by
  induction l with
  | nil => rfl
  | cons x rest ih =>
    show (insertByCount x (sortByCountDesc rest)).head? = firstMax (x :: rest)
    cases hs : sortByCountDesc rest with
    | nil =>
      have hrest : rest = [] := by
        have := length_sortByCountDesc rest
        rw [hs] at this
        exact List.length_eq_zero.mp this.symm
      subst hrest
      simp [insertByCount, firstMax, List.find?_cons]
    | cons m srest =>
      have hm : firstMax rest = some m := by rw [← ih, hs]; rfl
      have hm2 : rest.find? (fun p => rest.all (fun q => q.2 ≤ p.2)) = some m := hm
      have hmP := List.find?_some hm2
      have hmem : m ∈ rest := List.mem_of_find?_eq_some hm2
      have hmax : ∀ q ∈ rest, q.2 ≤ m.2 := by
        intro q hq
        exact (by simpa using (List.all_eq_true.mp hmP) q hq)
      by_cases hx : m.2 ≤ x.2
      · rw [insertByCount, if_pos hx]
        have hcond : ((x :: rest).all (fun q => q.2 ≤ x.2)) = true := by
          rw [List.all_eq_true]
          intro q hq
          rcases List.mem_cons.mp hq with rfl | hq2
          · simp
          · simpa using Nat.le_trans (hmax q hq2) hx
        unfold firstMax
        rw [List.find?_cons_of_pos _ (by simpa using hcond)]
        rfl
      · rw [insertByCount, if_neg hx]
        rw [List.head?_cons]
        unfold firstMax
        have hcondx : ((x :: rest).all (fun q => q.2 ≤ x.2)) = false := by
          rw [List.all_eq_false]
          exact ⟨m, List.mem_cons_of_mem x hmem, by simpa using hx⟩
        rw [List.find?_cons_of_neg _ (by simp [hcondx])]
        have hcongr : rest.find? (fun p => (x :: rest).all (fun q => q.2 ≤ p.2)) =
            rest.find? (fun p => rest.all (fun q => q.2 ≤ p.2)) := by
          refine find?_congr_mem rest _ _ ?_
          intro a ha
          rw [List.all_cons]
          by_cases hra : (rest.all (fun q => q.2 ≤ a.2)) = true
          · rw [hra]
            have hma : m.2 ≤ a.2 := by simpa using (List.all_eq_true.mp hra) m hmem
            have : x.2 ≤ a.2 := by omega
            simp [this]
          · rw [Bool.not_eq_true] at hra
            rw [hra]
            simp
        rw [hcongr]
        exact hm2.symm

/-- C9: for a non-empty log, the stats group-count by category
(defaulting empty to "general") and by source (defaulting empty to
"Unknown") in log order, and the favorites are exactly the
first-encountered key of maximal count — the stable sort's head agrees
with the order-of-insertion arg-max. -/
theorem c9_breakdowns_and_favorites (h : List ReadingHistoryItem) (now : Int)
    (hne : h ≠ []) :
    (∀ k : String, lookupCount (computeStats h now).categoriesBreakdown k =
      (h.filter (fun item =>
        (if item.category == "" then "general" else item.category) == k)).length) ∧
    (∀ k : String, lookupCount (computeStats h now).sourcesBreakdown k =
      (h.filter (fun item =>
        (if item.source == "" then "Unknown" else item.source) == k)).length) ∧
    (computeStats h now).favoriteCategory =
      ((firstMax (computeStats h now).categoriesBreakdown).map Prod.fst).getD "general" ∧
    (computeStats h now).favoriteSource =
      ((firstMax (computeStats h now).sourcesBreakdown).map Prod.fst).getD "Unknown" := by
  obtain ⟨a, t, rfl⟩ : ∃ a t, h = a :: t := by
    cases h with
    | nil => exact absurd rfl hne
    | cons a t => exact ⟨a, t, rfl⟩
  have hcat : (computeStats (a :: t) now).categoriesBreakdown =
      (a :: t).foldl (fun acc item =>
        bump acc (if item.category == "" then "general" else item.category)) [] := rfl
  have hsrc : (computeStats (a :: t) now).sourcesBreakdown =
      (a :: t).foldl (fun acc item =>
        bump acc (if item.source == "" then "Unknown" else item.source)) [] := rfl
  refine ⟨?_, ?_, ?_, ?_⟩
  · intro k
    rw [hcat]
    simpa [lookupCount] using lookupCount_foldl_bump (a :: t)
      (fun item => if item.category == "" then "general" else item.category) [] k
  · intro k
    rw [hsrc]
    simpa [lookupCount] using lookupCount_foldl_bump (a :: t)
      (fun item => if item.source == "" then "Unknown" else item.source) [] k
  · show ((sortByCountDesc ((computeStats (a :: t) now).categoriesBreakdown)).head?.map
      Prod.fst).getD "general" = _
    rw [head_sortByCountDesc]
  · show ((sortByCountDesc ((computeStats (a :: t) now).sourcesBreakdown)).head?.map
      Prod.fst).getD "Unknown" = _
    rw [head_sortByCountDesc]

def sampleHistoryItem : ReadingHistoryItem := mkHistoryItem sampleArticle 60 "technology" 0

def sampleHistoryItem2 : ReadingHistoryItem := mkHistoryItem sampleArticle 30 "" 100

theorem c9_breakdowns_and_favorites_witness :
    (computeStats [sampleHistoryItem, sampleHistoryItem2] 0).favoriteCategory =
      ((firstMax (computeStats [sampleHistoryItem, sampleHistoryItem2] 0).categoriesBreakdown).map
        Prod.fst).getD "general" :=
  (c9_breakdowns_and_favorites [sampleHistoryItem, sampleHistoryItem2] 0 (by simp)).2.2.1

/-! ### Streak lemmas (C5) -/

theorem getDateKey_sub_day (t : Int) : getDateKey (t - dayMs) = getDateKey t - 1 := by
  unfold getDateKey
  rw [Int.fdiv_eq_ediv _ (by norm_num [dayMs]), Int.fdiv_eq_ediv _ (by norm_num [dayMs])]
  have h : t - dayMs = t + (-1) * dayMs := by ring
  rw [h, Int.add_mul_ediv_right _ _ (show (dayMs : Int) ≠ 0 by norm_num [dayMs])]
  ring

theorem mem_dedupFrom (seen l : List Int) (x : Int) :
    x ∈ dedupFrom seen l ↔ x ∈ l ∧ x ∉ seen := by
  induction l generalizing seen with
  | nil => simp [dedupFrom]
  | cons d rest ih =>
    rw [dedupFrom]
    by_cases hd : d ∈ seen
    · rw [if_pos (by simpa using hd), ih]
      constructor
      · rintro ⟨hx, hns⟩
        exact ⟨List.mem_cons_of_mem d hx, hns⟩
      · rintro ⟨hx, hns⟩
        rcases List.mem_cons.mp hx with rfl | hx
        · exact absurd hd hns
        · exact ⟨hx, hns⟩
    · rw [if_neg (by simpa using hd)]
      constructor
      · intro hx
        rcases List.mem_cons.mp hx with rfl | hx
        · exact ⟨List.mem_cons_self x rest, hd⟩
        · rcases (ih (d :: seen)).mp hx with ⟨h1, h2⟩
          exact ⟨List.mem_cons_of_mem d h1,
            fun hc => h2 (List.mem_cons_of_mem d hc)⟩
      · rintro ⟨hx, hns⟩
        rcases List.mem_cons.mp hx with rfl | hx
        · exact List.mem_cons_self x _
        · by_cases hxd : x = d
          · subst hxd
            exact List.mem_cons_self x _
          · exact List.mem_cons_of_mem d ((ih (d :: seen)).mpr
              ⟨hx, by simp [hxd, hns]⟩)

theorem nodup_dedupFrom (seen l : List Int) : (dedupFrom seen l).Nodup := by
  induction l generalizing seen with
  | nil => exact List.nodup_nil
  | cons d rest ih =>
    rw [dedupFrom]
    by_cases hd : d ∈ seen
    · rw [if_pos (by simpa using hd)]
      exact ih seen
    · rw [if_neg (by simpa using hd)]
      refine List.Nodup.cons ?_ (ih (d :: seen))
      intro hc
      exact ((mem_dedupFrom (d :: seen) rest d).mp hc).2 (List.mem_cons_self d seen)

theorem mem_dedupDays (l : List Int) (x : Int) : x ∈ dedupDays l ↔ x ∈ l := by
  unfold dedupDays
  rw [mem_dedupFrom]
  simp

theorem nodup_dedupDays (l : List Int) : (dedupDays l).Nodup := nodup_dedupFrom [] l

theorem perm_insertDesc (x : Int) (l : List Int) : (insertDesc x l).Perm (x :: l) := by
  induction l with
  | nil => exact List.Perm.refl _
  | cons y ys ih =>
    rw [insertDesc]
    by_cases hc : x ≥ y
    · rw [if_pos hc]
    · rw [if_neg hc]
      exact (List.Perm.cons y ih).trans (List.Perm.swap x y ys)

theorem perm_sortDesc (l : List Int) : (sortDesc l).Perm l := by
  induction l with
  | nil => exact List.Perm.refl _
  | cons x rest ih =>
    show (insertDesc x (sortDesc rest)).Perm (x :: rest)
    exact (perm_insertDesc x (sortDesc rest)).trans (List.Perm.cons x ih)

theorem mem_sortDesc (l : List Int) (x : Int) : x ∈ sortDesc l ↔ x ∈ l :=
  (perm_sortDesc l).mem_iff

theorem nodup_sortDesc (l : List Int) (h : l.Nodup) : (sortDesc l).Nodup :=
  (perm_sortDesc l).nodup_iff.mpr h

theorem walkBack_run (days : List Int) (n : Nat) :
    ∀ (fuel : Nat) (ct : Int) (streak : Nat),
    (∀ i : Nat, 1 ≤ i → i ≤ n → days.contains (getDateKey ct - i) = true) →
    days.contains (getDateKey ct - (n + 1 : Nat)) = false →
    n ≤ fuel →
    walkBack days fuel ct streak = streak + n := by
  induction n with
  | zero =>
    intro fuel ct streak _ hgap _
    cases fuel with
    | zero => rfl
    | succ f =>
      rw [walkBack]
      have hck : getDateKey (ct - dayMs) = getDateKey ct - ((0 : Nat) + 1 : Nat) := by
        rw [getDateKey_sub_day]
        norm_num
      rw [hck, hgap]
      simp
  | succ n ih =>
    intro fuel ct streak hmem hgap hfuel
    obtain ⟨f, rfl⟩ : ∃ f, fuel = f + 1 := ⟨fuel - 1, by omega⟩
    rw [walkBack]
    have h1 : days.contains (getDateKey (ct - dayMs)) = true := by
      rw [getDateKey_sub_day]
      have := hmem 1 (by omega) (by omega)
      simpa using this
    rw [h1]
    simp only [if_true]
    rw [ih f (ct - dayMs) (streak + 1) ?hmem ?hgap (by omega)]
    · omega
    case hmem =>
      intro i h1i hin
      have := hmem (i + 1) (by omega) (by omega)
      rw [getDateKey_sub_day]
      have harith : getDateKey ct - 1 - (i : Int) = getDateKey ct - ((i : Nat) + 1 : Nat) := by
        push_cast
        ring
      rw [harith]
      exact this
    case hgap =>
      rw [getDateKey_sub_day]
      have harith : getDateKey ct - 1 - ((n : Nat) + 1 : Nat) =
          getDateKey ct - ((n + 1 : Nat) + 1 : Nat) := by
        push_cast
        ring
      rw [harith]
      exact hgap

theorem run_le_length (days : List Int) (seed : Int) (n : Nat)
    (hrun : ∀ i : Nat, i ≤ n → seed - i ∈ days) : n + 1 ≤ days.length := by
  have hsub : ((List.range (n + 1)).map (fun i : Nat => seed - (i : Int))) ⊆ days := by
    intro x hx
    rcases List.mem_map.mp hx with ⟨i, hi, rfl⟩
    exact hrun i (by have := List.mem_range.mp hi; omega)
  have hnd2 : ((List.range (n + 1)).map (fun i : Nat => seed - (i : Int))).Nodup := by
    refine List.Nodup.map ?_ (List.nodup_range _)
    intro a b hab
    simp only at hab
    have h2 : (a : Int) = (b : Int) := by linarith
    exact_mod_cast h2
  have := List.Subperm.length_le (hnd2.subperm hsub)
  simpa using this

/-- Core characterisation of the current-streak walk: if the seed day
(today when present, else yesterday) starts a run of `n + 1` consecutive
present days with a gap right after, the computed current streak is
`n + 1`. -/
theorem currentStreak_spec (h : List ReadingHistoryItem) (now : Int) (n : Nat)
    (hs : getDateKey now ∈ h.map (fun e => getDateKey e.readAt) ∨
      getDateKey now - 1 ∈ h.map (fun e => getDateKey e.readAt))
    (hrun : ∀ i : Nat, i ≤ n →
      (if getDateKey now ∈ h.map (fun e => getDateKey e.readAt) then getDateKey now
        else getDateKey now - 1) - i ∈ h.map (fun e => getDateKey e.readAt))
    (hgap : (if getDateKey now ∈ h.map (fun e => getDateKey e.readAt) then getDateKey now
        else getDateKey now - 1) - ((n + 1 : Nat) : Int) ∉
        h.map (fun e => getDateKey e.readAt)) :
    (calculateStreaks h now).1 = n + 1 := by
  obtain ⟨a, t, rfl⟩ : ∃ a t, h = a :: t := by
    cases h with
    | nil =>
      rcases hs with hs | hs <;> simp at hs
    | cons a t => exact ⟨a, t, rfl⟩
  have hred : (calculateStreaks (a :: t) now).1 =
      (if (sortDesc (dedupDays ((a :: t).map (fun e => getDateKey e.readAt)))).contains
            (getDateKey now) ||
          (sortDesc (dedupDays ((a :: t).map (fun e => getDateKey e.readAt)))).contains
            (getDateKey (now - dayMs)) then
        walkBack (sortDesc (dedupDays ((a :: t).map (fun e => getDateKey e.readAt))))
          ((sortDesc (dedupDays ((a :: t).map (fun e => getDateKey e.readAt)))).length - 1)
          (if (sortDesc (dedupDays ((a :: t).map (fun e => getDateKey e.readAt)))).contains
              (getDateKey now) then now
            else now - dayMs) 1
      else 0) := rfl
  set D := (a :: t).map (fun e => getDateKey e.readAt) with hD
  set SD := sortDesc (dedupDays D) with hSD
  have hmemSD : ∀ x : Int, x ∈ SD ↔ x ∈ D :=
    fun x => (mem_sortDesc (dedupDays D) x).trans (mem_dedupDays D x)
  have hcont : ∀ x : Int, SD.contains x = true ↔ x ∈ D := by
    intro x
    rw [List.elem_iff]
    exact hmemSD x
  have hcontf : ∀ x : Int, x ∉ D → SD.contains x = false := by
    intro x hx
    rw [← Bool.not_eq_true]
    exact fun hc => hx ((hcont x).mp hc)
  by_cases htoday : getDateKey now ∈ D
  · have hc1 : SD.contains (getDateKey now) = true := (hcont _).mpr htoday
    rw [hred, hc1]
    simp only [Bool.true_or, if_true]
    have hwalk := walkBack_run SD n (SD.length - 1) now 1 ?hmem ?hgap ?hfuel
    · rw [hwalk]
      omega
    case hmem =>
      intro i h1 h2
      refine (hcont _).mpr ?_
      have := hrun i (by omega)
      rwa [if_pos htoday] at this
    case hgap =>
      refine hcontf _ ?_
      have := hgap
      rwa [if_pos htoday] at this
    case hfuel =>
      have hrunSD : ∀ i : Nat, i ≤ n → getDateKey now - i ∈ SD := by
        intro i hi
        refine (hmemSD _).mpr ?_
        have := hrun i hi
        rwa [if_pos htoday] at this
      have := run_le_length SD (getDateKey now) n hrunSD
      omega
  · have hyest : getDateKey now - 1 ∈ D := by
      rcases hs with hs | hs
      · exact absurd hs htoday
      · exact hs
    have hc1 : SD.contains (getDateKey now) = false := hcontf _ htoday
    have hc2 : SD.contains (getDateKey (now - dayMs)) = true := by
      refine (hcont _).mpr ?_
      rw [getDateKey_sub_day]
      exact hyest
    rw [hred, hc1, hc2]
    simp only [Bool.false_or, if_true, Bool.false_eq_true, if_false]
    have hwalk := walkBack_run SD n (SD.length - 1) (now - dayMs) 1 ?hmem ?hgap ?hfuel
    · rw [hwalk]
      omega
    case hmem =>
      intro i h1 h2
      refine (hcont _).mpr ?_
      have := hrun i (by omega)
      rw [if_neg htoday] at this
      rwa [getDateKey_sub_day]
    case hgap =>
      refine hcontf _ ?_
      have := hgap
      rw [if_neg htoday] at this
      rwa [getDateKey_sub_day]
    case hfuel =>
      have hrunSD : ∀ i : Nat, i ≤ n → (getDateKey now - 1) - i ∈ SD := by
        intro i hi
        refine (hmemSD _).mpr ?_
        have := hrun i hi
        rwa [if_neg htoday] at this
      have := run_le_length SD (getDateKey now - 1) n hrunSD
      omega

/-- C5: the streak scenarios of the spec, plus the general rule —
current streak is 0 when neither today nor yesterday has an event, and
otherwise counts 1 for the seed day (today if present, else yesterday)
plus one per consecutive preceding day up to the first gap. -/
theorem c5_streak_scenarios (now : Int) :
    (∀ h : List ReadingHistoryItem,
      (∀ e ∈ h, getDateKey e.readAt = getDateKey now ∨
        getDateKey e.readAt = getDateKey now - 1 ∨
        getDateKey e.readAt = getDateKey now - 2) →
      getDateKey now ∈ h.map (fun e => getDateKey e.readAt) →
      getDateKey now - 1 ∈ h.map (fun e => getDateKey e.readAt) →
      getDateKey now - 2 ∈ h.map (fun e => getDateKey e.readAt) →
      (calculateStreaks h now).1 = 3) ∧
    (∀ h : List ReadingHistoryItem,
      (∀ e ∈ h, getDateKey e.readAt = getDateKey now ∨
        getDateKey e.readAt = getDateKey now - 2) →
      getDateKey now ∈ h.map (fun e => getDateKey e.readAt) →
      getDateKey now - 2 ∈ h.map (fun e => getDateKey e.readAt) →
      (calculateStreaks h now).1 = 1) ∧
    (∀ h : List ReadingHistoryItem,
      (∀ e ∈ h, ∃ j : Nat, 1 ≤ j ∧ j ≤ 5 ∧ getDateKey e.readAt = getDateKey now - j) →
      (∀ j : Nat, 1 ≤ j → j ≤ 5 →
        getDateKey now - j ∈ h.map (fun e => getDateKey e.readAt)) →
      (calculateStreaks h now).1 = 5) ∧
    calculateStreaks [] now = (0, 0) ∧
    (∀ h : List ReadingHistoryItem,
      (∀ e ∈ h, getDateKey e.readAt ≠ getDateKey now ∧
        getDateKey e.readAt ≠ getDateKey now - 1) →
      (calculateStreaks h now).1 = 0) ∧
    (∀ (h : List ReadingHistoryItem) (n : Nat),
      (getDateKey now ∈ h.map (fun e => getDateKey e.readAt) ∨
        getDateKey now - 1 ∈ h.map (fun e => getDateKey e.readAt)) →
      (∀ i : Nat, i ≤ n →
        (if getDateKey now ∈ h.map (fun e => getDateKey e.readAt) then getDateKey now
          else getDateKey now - 1) - i ∈ h.map (fun e => getDateKey e.readAt)) →
      (if getDateKey now ∈ h.map (fun e => getDateKey e.readAt) then getDateKey now
        else getDateKey now - 1) - ((n + 1 : Nat) : Int) ∉
        h.map (fun e => getDateKey e.readAt) →
      (calculateStreaks h now).1 = n + 1) := by
  have hnotmem : ∀ (h : List ReadingHistoryItem) (d : Int),
      (∀ e ∈ h, getDateKey e.readAt ≠ d) → d ∉ h.map (fun e => getDateKey e.readAt) := by
    intro h d hall hmem
    rcases List.mem_map.mp hmem with ⟨e, he, heq⟩
    exact hall e he heq
  refine ⟨?_, ?_, ?_, rfl, ?_, ?_⟩
  · -- days D-0, D-1, D-2, gap at D-3 : streak 3
    intro h hall h0 h1 h2
    have := currentStreak_spec h now 2 (Or.inl h0) ?_ ?_
    · simpa using this
    · intro i hi
      rw [if_pos h0]
      interval_cases i
      · simpa using h0
      · simpa using h1
      · simpa using h2
    · rw [if_pos h0]
      refine hnotmem h _ ?_
      intro e he heq
      rcases hall e he with hc | hc | hc <;> rw [hc] at heq <;> omega
  · -- days D-0 and D-2 only : streak 1
    intro h hall h0 h2
    have := currentStreak_spec h now 0 (Or.inl h0) ?_ ?_
    · simpa using this
    · intro i hi
      rw [if_pos h0]
      interval_cases i
      simpa using h0
    · rw [if_pos h0]
      refine hnotmem h _ ?_
      intro e he heq
      rcases hall e he with hc | hc <;> rw [hc] at heq <;> omega
  · -- days D-5 .. D-1, nothing today : streak 5
    intro h hall hj
    have htoday : getDateKey now ∉ h.map (fun e => getDateKey e.readAt) := by
      refine hnotmem h _ ?_
      intro e he heq
      rcases hall e he with ⟨j, hj1, hj5, hje⟩
      rw [hje] at heq
      have : (j : Int) = 0 := by linarith
      omega
    have hyest : getDateKey now - 1 ∈ h.map (fun e => getDateKey e.readAt) := by
      simpa using hj 1 (by omega) (by omega)
    have := currentStreak_spec h now 4 (Or.inr hyest) ?_ ?_
    · simpa using this
    · intro i hi
      rw [if_neg htoday]
      have harith : getDateKey now - 1 - (i : Int) =
          getDateKey now - ((i + 1 : Nat) : Int) := by
        push_cast
        ring
      rw [harith]
      exact hj (i + 1) (by omega) (by omega)
    · rw [if_neg htoday]
      refine hnotmem h _ ?_
      intro e he heq
      rcases hall e he with ⟨j, hj1, hj5, hje⟩
      rw [hje] at heq
      have : (j : Int) = 6 := by push_cast at heq ⊢; linarith
      omega
  · -- neither today nor yesterday : streak 0
    intro h hall
    cases h with
    | nil => rfl
    | cons a t =>
      have hred : (calculateStreaks (a :: t) now).1 =
          (if (sortDesc (dedupDays ((a :: t).map (fun e => getDateKey e.readAt)))).contains
                (getDateKey now) ||
              (sortDesc (dedupDays ((a :: t).map (fun e => getDateKey e.readAt)))).contains
                (getDateKey (now - dayMs)) then
            walkBack (sortDesc (dedupDays ((a :: t).map (fun e => getDateKey e.readAt))))
              ((sortDesc (dedupDays ((a :: t).map (fun e => getDateKey e.readAt)))).length - 1)
              (if (sortDesc (dedupDays ((a :: t).map (fun e => getDateKey e.readAt)))).contains
                  (getDateKey now) then now
                else now - dayMs) 1
          else 0) := rfl
      set D := (a :: t).map (fun e => getDateKey e.readAt) with hD
      set SD := sortDesc (dedupDays D) with hSD
      have hmemSD : ∀ x : Int, x ∈ SD ↔ x ∈ D :=
        fun x => (mem_sortDesc (dedupDays D) x).trans (mem_dedupDays D x)
      have hcontf : ∀ x : Int, x ∉ D → SD.contains x = false := by
        intro x hx
        rw [← Bool.not_eq_true, List.elem_iff]
        exact fun hc => hx ((hmemSD x).mp hc)
      have hc1 : SD.contains (getDateKey now) = false :=
        hcontf _ (hnotmem _ _ (fun e he => (hall e he).1))
      have hc2 : SD.contains (getDateKey (now - dayMs)) = false := by
        rw [getDateKey_sub_day]
        exact hcontf _ (hnotmem _ _ (fun e he => (hall e he).2))
      rw [hred, hc1, hc2]
      simp
  · -- general seed-and-extend rule
    intro h n hs hrun hgap
    exact currentStreak_spec h now n hs hrun hgap

def streakEvent (t : Int) : ReadingHistoryItem := mkHistoryItem sampleArticle 60 "technology" t

theorem c5_streak_scenarios_witness :
    (calculateStreaks [streakEvent (10 * dayMs + 5), streakEvent (9 * dayMs + 7),
      streakEvent (8 * dayMs + 1)] (10 * dayMs + 100)).1 = 3 :=
  (c5_streak_scenarios (10 * dayMs + 100)).1
    [streakEvent (10 * dayMs + 5), streakEvent (9 * dayMs + 7), streakEvent (8 * dayMs + 1)]
    (by decide) (by decide) (by decide) (by decide)
